import Mathlib

/-!
# VectorOps — formal model of the retrieval / sanitization / generation core

Shallow embedding of the TypeScript sources:
* `server/src/lib/hybridSearch.ts`   — hybrid semantic + lexical retrieval
* `server/src/routes/chat.ts`        — input policy, context sanitizer,
                                       generation orchestration, output policy
* `server/src/routes/injest.ts` and `server/src/lib/chunkAndIngest.ts`
                                     — ingestion pipeline

Scores are modelled as rationals, strings character-exactly as `List Char`
where regular-expression behaviour matters.  External collaborators
(Chroma vector store, MiniSearch, the LLM providers, MongoDB) are passed
in as explicit data so the control flow of the repository code can be
stated and proved as pure functions.
-/

namespace VectorOps

/-! ## Character-level machinery for the JS regular expressions

Strings are handled as `List Char`.  `jsTrim` models `String.prototype.trim`
(strip whitespace at both ends).  The JS regexes of the security layers are
embedded as explicit greedy matchers: a `Matcher` receives the character
just before the current position (needed for the `\b` word boundary) and
the remaining suffix, and returns the length of the match the JS engine
would take at this position, if any. -/

/-- JS `\w` (`[A-Za-z0-9_]`). -/
def isWordChar (c : Char) : Bool := c.isAlphanum || c = '_'

def isWordOpt : Option Char → Bool
  | none => false
  | some c => isWordChar c

/-- `String.prototype.trim` on the character list. -/
def trimChars (s : List Char) : List Char :=
  ((s.dropWhile Char.isWhitespace).reverse.dropWhile Char.isWhitespace).reverse

def jsTrim (s : String) : String := String.mk (trimChars s.data)

abbrev Matcher := Option Char → List Char → Option Nat

/-- Number of leading decimal digits. -/
def dcount (s : List Char) : Nat := (s.takeWhile Char.isDigit).length

/-- `\b` between positions `k-1` and `k` of `s` (used for a boundary at the
end of a match of length `k ≥ 1`). -/
def boundaryAt (s : List Char) (k : Nat) : Bool :=
  isWordOpt ((s.take k).getLast?) != isWordOpt ((s.drop k).head?)

/-- Matcher of `/\b\d{lo,hi}\b/`: with a word boundary before, the greedy
repetition succeeds exactly when the maximal leading digit run has length
`d ∈ [lo, hi]` and the character after it keeps the closing boundary
(shorter backtracked lengths always end on a digit and fail `\b`). -/
def digitRunMatcher (lo hi : Nat) : Matcher := fun prev s =>
  if isWordOpt prev then none
  else
    let d := dcount s
    if lo ≤ d ∧ d ≤ hi ∧ boundaryAt s d = true then some d else none

/-- `String.prototype.replace` with a global regex: scan left to right, at a
match emit the replacement and resume after the matched characters (the
resumed boundary context is the last *original* matched character).  The
fuel is the string length; every step consumes at least one character. -/
def replaceGFuel (m : Matcher) (repl : List Char) :
    Nat → Option Char → List Char → List Char
  | 0, _, s => s
  | _ + 1, _, [] => []
  | fuel + 1, prev, c :: rest =>
    match m prev (c :: rest) with
    | some k =>
      let k1 := max k 1
      repl ++ replaceGFuel m repl fuel (((c :: rest).take k1).getLast?)
        ((c :: rest).drop k1)
    | none => c :: replaceGFuel m repl fuel (some c) rest

def replaceG (m : Matcher) (repl : List Char) (s : List Char) : List Char :=
  replaceGFuel m repl s.length none s

/-- `String.prototype.replace` with a non-global regex: only the first
match is replaced. -/
def replaceFirstAux (m : Matcher) (repl : List Char) :
    Option Char → List Char → List Char
  | _, [] => []
  | prev, c :: rest =>
    match m prev (c :: rest) with
    | some k => repl ++ (c :: rest).drop (max k 1)
    | none => c :: replaceFirstAux m repl (some c) rest

def replaceFirst (m : Matcher) (repl : List Char) (s : List Char) : List Char :=
  replaceFirstAux m repl none s

/-- `RegExp.prototype.test`: does the matcher succeed at some position? -/
def searchM (m : Matcher) : Option Char → List Char → Bool
  | prev, [] => (m prev []).isSome
  | prev, c :: rest => (m prev (c :: rest)).isSome || searchM m (some c) rest

def reTest (m : Matcher) (s : List Char) : Bool := searchM m none s

/-- Is `pat` a prefix of `s`? -/
def leadsWith : List Char → List Char → Bool
  | [], _ => true
  | _ :: _, [] => false
  | a :: as, b :: bs => a = b && leadsWith as bs

/-- Does `s` contain `pat` as a contiguous substring? -/
def containsSub (pat s : List Char) : Bool :=
  s.tails.any (fun t => leadsWith pat t)

/-- Occurrence count of `pat` in `s` (the marker `[REDACTED]` cannot
overlap itself, so this equals the JS `match(/…/g).length` count). -/
def countSub (pat s : List Char) : Nat :=
  ((s.tails).filter (fun t => leadsWith pat t)).length

/-! ### A small greedy regular-expression calculus

`lens r s` lists the lengths of the matches of `r` at the start of `s`
in the JS engine's backtracking priority order (greedy repetition,
left-to-right alternation); the engine takes the head.  Starred pieces in
the source patterns only repeat single character classes, which the
calculus builds in, so no general backtracking is needed. -/

inductive RE where
  | lit (s : List Char)                        -- case-sensitive literal
  | litCI (s : List Char)                      -- case-insensitive literal (given lowercase)
  | cls (p : Char → Bool)                      -- one character of a class
  | seq (a b : RE)
  | alt (a b : RE)
  | opt (a : RE)                               -- greedy `?`
  | rep (p : Char → Bool) (lo : Nat) (hi : Option Nat)  -- greedy `{lo,hi}` / `{lo,}` on a class

/-- Greedy match lengths of a class repetition, longest first. -/
def repLens (p : Char → Bool) (lo : Nat) (hi : Option Nat) (s : List Char) :
    List Nat :=
  let m := (s.takeWhile p).length
  let top := match hi with
    | none => m
    | some h => min m h
  (List.range (top + 1 - lo)).map (fun i => top - i)

def lens : RE → List Char → List Nat
  | .lit l, s => if leadsWith l s then [l.length] else []
  | .litCI l, s => if leadsWith l (s.map Char.toLower) then [l.length] else []
  | .cls p, s =>
    match s with
    | [] => []
    | c :: _ => if p c then [1] else []
  | .seq a b, s => (lens a s).flatMap (fun k => (lens b (s.drop k)).map (k + ·))
  | .alt a b, s => lens a s ++ lens b s
  | .opt a, s => lens a s ++ [0]
  | .rep p lo hi, s => repLens p lo hi s

/-- Matcher of a regex with no word-boundary anchors. -/
def reMatcherPlain (r : RE) : Matcher := fun _ s => (lens r s).head?

/-- Matcher of `/\b r \b/` where every alternative of `r` starts and ends
with a word character or class: the opening boundary compares the previous
character with the head of the suffix, the closing boundary is checked on
each candidate length in priority order (backtracking). -/
def reMatcherWB (r : RE) : Matcher := fun prev s =>
  if isWordOpt prev != isWordOpt s.head? then
    (lens r s).find? (fun k => boundaryAt s k)
  else none

/-- Matcher of `/\b r/` (boundary at the start only). -/
def reMatcherStartWB (r : RE) : Matcher := fun prev s =>
  if isWordOpt prev != isWordOpt s.head? then (lens r s).head? else none

def chars (s : String) : List Char := s.data

/-- Case-insensitive alternation of literal words, in source order. -/
def altCI (ws : List String) : RE :=
  match ws with
  | [] => .cls (fun _ => false)
  | w :: rest => rest.foldl (fun acc x => RE.alt acc (.litCI (chars x))) (.litCI (chars w))

/-- Case-sensitive alternation of literal words, in source order. -/
def altCS (ws : List String) : RE :=
  match ws with
  | [] => .cls (fun _ => false)
  | w :: rest => rest.foldl (fun acc x => RE.alt acc (.lit (chars x))) (.lit (chars w))

def altRE (rs : List RE) : RE :=
  match rs with
  | [] => .cls (fun _ => false)
  | r :: rest => rest.foldl RE.alt r

/-! ## Hybrid search (`lib/hybridSearch.ts`) -/

/-- `SEMANTIC_WEIGHT` from `hybridSearch.ts`. -/
def SEMANTIC_WEIGHT : ℚ := 7/10

/-- `LEXICAL_WEIGHT` from `hybridSearch.ts`. -/
def LEXICAL_WEIGHT : ℚ := 3/10

inductive Source where
  | semantic
  | lexical
  deriving DecidableEq, Repr

/-- One raw entry of the semantic (Chroma) query answer:
document text, metadata file path, cosine distance. -/
structure SemanticRaw where
  content : String
  filePath : Option String
  distance : ℚ
  deriving DecidableEq, Repr

/-- One raw entry of the lexical (MiniSearch) answer. -/
structure LexicalRaw where
  content : String
  filePath : String
  score : ℚ
  deriving DecidableEq, Repr

/-- A combined candidate before final scoring (`SemanticDoc` / lexical doc
shapes of `hybridSearch.ts`). -/
structure Candidate where
  content : String
  filePath : Option String
  score : ℚ
  source : Source
  deriving DecidableEq, Repr

/-- `HybridSearchResult` of `hybridSearch.ts`: candidate plus `finalScore`. -/
structure HybridSearchResult where
  content : String
  filePath : Option String
  score : ℚ
  source : Source
  finalScore : ℚ
  deriving DecidableEq, Repr

def semanticToCandidate (d : SemanticRaw) : Candidate :=
  { content := d.content, filePath := d.filePath,
    score := 1 - d.distance, source := .semantic }

def lexicalToCandidate (d : LexicalRaw) : Candidate :=
  { content := d.content, filePath := some d.filePath,
    score := d.score, source := .lexical }

/-- The `.map` adding `finalScore`:
`d.source === "semantic" ? d.score * SEMANTIC_WEIGHT : d.score * LEXICAL_WEIGHT`. -/
def withFinalScore (c : Candidate) : HybridSearchResult :=
  { content := c.content, filePath := c.filePath, score := c.score,
    source := c.source,
    finalScore :=
      match c.source with
      | .semantic => c.score * SEMANTIC_WEIGHT
      | .lexical => c.score * LEXICAL_WEIGHT }

/-- Descending comparison used by `.sort((a, b) => b.finalScore - a.finalScore)`;
`Array.prototype.sort` is stable. -/
def byFinalScoreDesc (a b : HybridSearchResult) : Bool :=
  decide (b.finalScore ≤ a.finalScore)

/-- Stable insert for the model of the (stable, ES2019) JS sort. -/
def stableInsert (le : α → α → Bool) (a : α) : List α → List α
  | [] => [a]
  | b :: t => if le a b then a :: b :: t else b :: stableInsert le a t

/-- Stable comparator sort (insertion sort): the earliest element is placed
before every later element it compares less-or-equal to, which matches the
stability guarantee of `Array.prototype.sort`. -/
def stableSort (le : α → α → Bool) : List α → List α
  | [] => []
  | a :: t => stableInsert le a (stableSort le t)

/-- `hybridSearch` of `hybridSearch.ts`.  The two retrieval branches are
passed in as data: the lexical MiniSearch answer (its call cannot reject in
the source) and the semantic Chroma answer, which is fallible — the source
has **no** try/catch around `getOrCreateCollection`/`collection.query`, so a
semantic failure makes the returned promise reject; this is modelled by the
`Except`.  Steps mirrored: empty-trim guard, score conversion `1 - distance`,
concatenation of the two lists, per-source weighting, stable descending sort,
`slice(0, 5)`. -/
def hybridSearch (query : String)
    (semantic : Except String (List SemanticRaw))
    (lexical : List LexicalRaw) :
    Except String (List HybridSearchResult) :=
  if (jsTrim query = "") then .ok []
  else
    match semantic with
    | .error e => .error e
    | .ok sems =>
      let semanticDocs := sems.map semanticToCandidate
      let lexicalDocs := lexical.map lexicalToCandidate
      let combined := semanticDocs ++ lexicalDocs
      let ranked := (stableSort byFinalScoreDesc (combined.map withFinalScore)).take 5
      .ok ranked

/-! ## Input policy (`BLOCKED_PATTERNS` / `violatesInputPolicy`, chat.ts) -/

/-- `.` of `driver.?license` (any character but a newline). -/
def anyNotNl (c : Char) : Bool := !(c = '\n')

/-- The twelve `BLOCKED_PATTERNS` regexes of `chat.ts`, in order. -/
def BLOCKED_PATTERNS : List Matcher :=
  [ reMatcherWB (altCI ["bank", "banking", "account", "acc", "acct", "ifsc", "routing", "swift"]),
    reMatcherWB (altCI ["credit card", "debit card", "card number"]),
    reMatcherWB (altCI ["account number", "account#", "acct#"]),
    reMatcherWB (altCI ["ssn", "social security", "tax id", "tin", "aadhar", "pan", "gstin"]),
    reMatcherWB (altRE
      [ .seq (.litCI (chars "driver")) (.seq (.opt (.cls anyNotNl)) (.litCI (chars "license"))),
        .litCI (chars "passport"),
        .litCI (chars "visa") ]),
    reMatcherWB (altCI ["password", "passwd", "pwd", "pin", "otp", "verification code"]),
    reMatcherWB (altCI ["api key", "secret", "private key", "token"]),
    reMatcherPlain (altCI ["ignore previous", "ignore all prior", "forget about"]),
    reMatcherPlain (altCI ["system message", "system prompt"]),
    reMatcherPlain (altCI ["you are actually", "pretend that", "act as if"]),
    reMatcherPlain (altCI ["override", "override directive", "new instructions"]),
    reMatcherPlain (altCI ["jailbreak", "bypass", "circumvent", "override"]) ]

/-- `violatesInputPolicy` of `chat.ts`: true iff any blocked pattern tests
positive on the query. -/
def violatesInputPolicy (query : String) : Bool :=
  BLOCKED_PATTERNS.any (fun m => reTest m query.data)

/-! ## Context sanitizer (`sanitizeContext` and its stages, chat.ts) -/

def REDACTED : List Char := chars "[REDACTED]"

/-- One entry of `SENSITIVE_CONTEXT_PATTERNS`: the matcher and whether the
source regex carries the `g` flag (only the two digit-run patterns do; a
non-global `String.replace` rewrites only the first occurrence). -/
structure SencPat where
  m : Matcher
  global : Bool

/-- `SENSITIVE_CONTEXT_PATTERNS` of `chat.ts`, in order:
`/\b\d{12,16}\b/g`, `/\b\d{9,12}\b/g`, `/account number/i`, `/ifsc/i`,
`/password/i`, `/secret/i`, `/token/i`. -/
def SENSITIVE_CONTEXT_PATTERNS : List SencPat :=
  [ ⟨digitRunMatcher 12 16, true⟩,
    ⟨digitRunMatcher 9 12, true⟩,
    ⟨reMatcherPlain (.litCI (chars "account number")), false⟩,
    ⟨reMatcherPlain (.litCI (chars "ifsc")), false⟩,
    ⟨reMatcherPlain (.litCI (chars "password")), false⟩,
    ⟨reMatcherPlain (.litCI (chars "secret")), false⟩,
    ⟨reMatcherPlain (.litCI (chars "token")), false⟩ ]

def applySencPat (s : List Char) (p : SencPat) : List Char :=
  if p.global then replaceG p.m REDACTED s else replaceFirst p.m REDACTED s

/-- Stage 1 of `sanitizeContext`: the `for`-loop
`sanitized = sanitized.replace(pattern, "[REDACTED]")`. -/
def redactStage (s : List Char) : List Char :=
  SENSITIVE_CONTEXT_PATTERNS.foldl applySencPat s

/-- `text.split("\n")` (JS yields `[""]` on the empty string). -/
def splitNL : List Char → List (List Char)
  | [] => [[]]
  | c :: rest =>
    if c = '\n' then [] :: splitNL rest
    else
      match splitNL rest with
      | [] => [[c]]
      | h :: t => (c :: h) :: t

/-- `lines.join("\n")`. -/
def joinNL : List (List Char) → List Char
  | [] => []
  | [l] => l
  | l :: ls => l ++ '\n' :: joinNL ls

/-- The lowercase cues dropped by `filterInstructionContent`. -/
def instructionCues : List (List Char) :=
  [chars "always say", chars "ignore", chars "override", chars "new instructions"]

def lineBlocked (line : List Char) : Bool :=
  instructionCues.any (fun cue => containsSub cue (line.map Char.toLower))

/-- Stage 2 of `sanitizeContext`: `filterInstructionContent` — split into
lines, drop each line whose lowercase form contains a cue, re-join. -/
def filterInstructionContent (s : List Char) : List Char :=
  joinNL ((splitNL s).filter (fun l => !lineBlocked l))

/-- `[#\s]`. -/
def hashWs (c : Char) : Bool := c = '#' || c.isWhitespace

/-- `[\d\-]`. -/
def digitDash (c : Char) : Bool := c.isDigit || c = '-'

/-- `[a-zA-Z0-9_\-\.]`. -/
def keyChar (c : Char) : Bool := c.isAlphanum || c = '_' || c = '-' || c = '.'

/-- `[^a-z]` under the `i` flag (neither case of a letter). -/
def notAlpha (c : Char) : Bool := !c.isAlpha

/-- `[\d\s]`. -/
def digitWs (c : Char) : Bool := c.isDigit || c.isWhitespace

/-- `[^,\.]`. -/
def notCommaDot (c : Char) : Bool := !(c = ',' || c = '.')

/-- `[\s:]`. -/
def wsColon (c : Char) : Bool := c.isWhitespace || c = ':'

/-- `['"]`. -/
def quoteChar (c : Char) : Bool := c = '\'' || c = '"'

/-- `[^'"\n]`. -/
def notQuoteNl (c : Char) : Bool := !(c = '\'' || c = '"' || c = '\n')

/-- The seven `sensitivePatterns` of `semanticRedactContext`, in order. -/
def semanticPatterns : List Matcher :=
  [ -- /(?:account|acc|acct)[#\s]*(?:num|number)?\s*:?\s*[\d\-]+/gi
    reMatcherPlain (.seq (altCI ["account", "acc", "acct"])
      (.seq (.rep hashWs 0 none)
        (.seq (.opt (altCI ["num", "number"]))
          (.seq (.rep Char.isWhitespace 0 none)
            (.seq (.opt (.lit [':']))
              (.rep digitDash 1 none)))))),
    -- /(?:credit|debit|card)[#\s]*num[^a-z]*[\d\s]{12,19}/gi
    reMatcherPlain (.seq (altCI ["credit", "debit", "card"])
      (.seq (.rep hashWs 0 none)
        (.seq (.litCI (chars "num"))
          (.seq (.rep notAlpha 0 none)
            (.rep digitWs 12 (some 19)))))),
    -- /ssn|social security|tax id|tin/gi
    reMatcherPlain (altCI ["ssn", "social security", "tax id", "tin"]),
    -- /(?:api|auth|secret|password|passwd|pwd)[#\s]*key\s*:?\s*[a-zA-Z0-9_\-\.]{8,}/g
    reMatcherPlain (.seq (altCS ["api", "auth", "secret", "password", "passwd", "pwd"])
      (.seq (.rep hashWs 0 none)
        (.seq (.lit (chars "key"))
          (.seq (.rep Char.isWhitespace 0 none)
            (.seq (.opt (.lit [':']))
              (.rep keyChar 8 none)))))),
    -- /(?:pin|code|otp|verification)\s*:?\s*\d{4,6}/gi
    reMatcherPlain (.seq (altCI ["pin", "code", "otp", "verification"])
      (.seq (.rep Char.isWhitespace 0 none)
        (.seq (.opt (.lit [':']))
          (.seq (.rep Char.isWhitespace 0 none)
            (.rep Char.isDigit 4 (some 6)))))),
    -- /\baadhar\b|\bpan\b|\bgstin\b/gi
    reMatcherWB (altCI ["aadhar", "pan", "gstin"]),
    -- /(?:name|email|phone|address|ssn|date of birth):\s*[^,\.]+/gi
    reMatcherPlain (.seq (altCI ["name", "email", "phone", "address", "ssn", "date of birth"])
      (.seq (.lit [':'])
        (.seq (.rep Char.isWhitespace 0 none)
          (.rep notCommaDot 1 none)))) ]

/-- Stage 3 of `sanitizeContext`: `semanticRedactContext` — for each
pattern, `if (pattern.test(redacted)) redacted = redacted.replace(pattern,
"[REDACTED]")`. -/
def semanticRedactContext (s : List Char) : List Char :=
  semanticPatterns.foldl
    (fun acc m => if reTest m acc then replaceG m REDACTED acc else acc) s

/-- The nine `injectionPatterns` of `detectInstructionInjection`, in order. -/
def injectionPatterns : List Matcher :=
  [ reMatcherPlain (.litCI (chars "always respond with")),
    -- /forget (about |the )?previous/i
    reMatcherPlain (.seq (.litCI (chars "forget "))
      (.seq (.opt (altCI ["about ", "the "])) (.litCI (chars "previous")))),
    -- /ignore (above|previous|all prior)/i
    reMatcherPlain (.seq (.litCI (chars "ignore "))
      (altCI ["above", "previous", "all prior"])),
    -- /override (above|previous)/i
    reMatcherPlain (.seq (.litCI (chars "override ")) (altCI ["above", "previous"])),
    reMatcherPlain (.litCI (chars "system message")),
    -- /new instructions?:/i
    reMatcherPlain (.seq (.litCI (chars "new instruction"))
      (.seq (.opt (.litCI (chars "s"))) (.litCI (chars ":")))),
    reMatcherPlain (.litCI (chars "you are actually")),
    reMatcherPlain (.litCI (chars "pretend that")),
    reMatcherPlain (.litCI (chars "act as if")) ]

def detectInstructionInjection (s : List Char) : Bool :=
  injectionPatterns.any (fun m => reTest m s)

/-- The advisory report of `validateContextSafety`. -/
structure SafetyReport where
  safe : Bool
  issues : List String
  deriving DecidableEq

/-- Stage 4 of `sanitizeContext`: `validateContextSafety` (logged only,
never enforced). -/
def validateContextSafety (s : List Char) : SafetyReport :=
  let issues : List String :=
    (if detectInstructionInjection s then ["Instruction injection attempt detected"] else [])
    ++ (if 5 < countSub REDACTED s then
          ["High volume of redacted content (" ++ toString (countSub REDACTED s) ++ " instances)"]
        else [])
    ++ (if 50000 < s.length then ["Context exceeds 50KB (attention dilution risk)"] else [])
  { safe := issues.isEmpty, issues := issues }

/-- `sanitizeContext` of `chat.ts`: pattern redaction, instruction-line
filtering, semantic redaction; the safety validation of the result is
computed for logging and does not alter the text. -/
def sanitizeContext (s : List Char) : List Char :=
  semanticRedactContext (filterInstructionContent (redactStage s))

def sanitizeContextStr (s : String) : String :=
  String.mk (sanitizeContext s.data)

/-! ## Output policy (`OUTPUT_BLOCK_PATTERNS` / `violatesOutputPolicy`) -/

/-- `[1-5]`. -/
def oneToFive (c : Char) : Bool := '1' ≤ c && c ≤ '5'

/-- `[0-5]`. -/
def zeroToFive (c : Char) : Bool := '0' ≤ c && c ≤ '5'

/-- `[47]`. -/
def fourOrSeven (c : Char) : Bool := c = '4' || c = '7'

/-- `[68]`. -/
def sixOrEight (c : Char) : Bool := c = '6' || c = '8'

/-- `[_-]`. -/
def underscoreDash (c : Char) : Bool := c = '_' || c = '-'

/-- The card-number alternation of the first output-block pattern. -/
def cardNumberRE : RE :=
  altRE
    [ .seq (.lit ['4']) (.seq (.rep Char.isDigit 12 (some 12)) (.opt (.rep Char.isDigit 3 (some 3)))),
      .seq (.lit ['5']) (.seq (.cls oneToFive) (.rep Char.isDigit 14 (some 14))),
      .seq (.lit ['3']) (.seq (.cls fourOrSeven) (.rep Char.isDigit 13 (some 13))),
      .seq (.lit ['3'])
        (.seq (.alt (.seq (.lit ['0']) (.cls zeroToFive)) (.seq (.cls sixOrEight) (.cls Char.isDigit)))
          (.rep Char.isDigit 11 (some 11))),
      .seq (.lit ['6'])
        (.seq (.alt (.lit (chars "011")) (.seq (.lit ['5']) (.rep Char.isDigit 2 (some 2))))
          (.rep Char.isDigit 12 (some 12))),
      .seq (.alt (.lit (chars "2131"))
          (.alt (.lit (chars "1800")) (.seq (.lit (chars "35")) (.rep Char.isDigit 3 (some 3)))))
        (.rep Char.isDigit 11 (some 11)) ]

/-- The seven `OUTPUT_BLOCK_PATTERNS` regexes of `chat.ts`, in order. -/
def OUTPUT_BLOCK_PATTERNS : List Matcher :=
  [ reMatcherWB cardNumberRE,
    -- /\b(?:account|acc|acct)[#\s]*(?:num|number)?\s*:?\s*[\d\-]{8,20}/i
    reMatcherStartWB (.seq (altCI ["account", "acc", "acct"])
      (.seq (.rep hashWs 0 none)
        (.seq (.opt (altCI ["num", "number"]))
          (.seq (.rep Char.isWhitespace 0 none)
            (.seq (.opt (.lit [':']))
              (.seq (.rep Char.isWhitespace 0 none)
                (.rep digitDash 8 (some 20)))))))),
    -- /(?:ssn|social security|tax id)[\s:]*[\d\-]{9,11}/i
    reMatcherPlain (.seq (altCI ["ssn", "social security", "tax id"])
      (.seq (.rep wsColon 0 none) (.rep digitDash 9 (some 11)))),
    -- /(?:ifsc|swift|routing)[\s:]*[A-Z0-9]{8,20}/i
    reMatcherPlain (.seq (altCI ["ifsc", "swift", "routing"])
      (.seq (.rep wsColon 0 none) (.rep Char.isAlphanum 8 (some 20)))),
    -- /(?:api[_-]?key|secret[_-]?key|auth[_-]?token)[\s:]*[a-zA-Z0-9_\-\.]{20,}/i
    reMatcherPlain (.seq (altRE
        [ .seq (.litCI (chars "api")) (.seq (.opt (.cls underscoreDash)) (.litCI (chars "key"))),
          .seq (.litCI (chars "secret")) (.seq (.opt (.cls underscoreDash)) (.litCI (chars "key"))),
          .seq (.litCI (chars "auth")) (.seq (.opt (.cls underscoreDash)) (.litCI (chars "token"))) ])
      (.seq (.rep wsColon 0 none) (.rep keyChar 20 none))),
    -- /(?:aadhar|pan|gstin)[\s:]*[A-Z0-9]{8,12}/i
    reMatcherPlain (.seq (altCI ["aadhar", "pan", "gstin"])
      (.seq (.rep wsColon 0 none) (.rep Char.isAlphanum 8 (some 12)))),
    -- /\b(?:my|your)\s+(?:name|email|phone|ssn|account)\s*:?\s*['"]?[^'"\n]+['"]?/i
    reMatcherStartWB (.seq (altCI ["my", "your"])
      (.seq (.rep Char.isWhitespace 1 none)
        (.seq (altCI ["name", "email", "phone", "ssn", "account"])
          (.seq (.rep Char.isWhitespace 0 none)
            (.seq (.opt (.lit [':']))
              (.seq (.rep Char.isWhitespace 0 none)
                (.seq (.opt (.cls quoteChar))
                  (.seq (.rep notQuoteNl 1 none) (.opt (.cls quoteChar)))))))))) ]

/-- `violatesOutputPolicy` of `chat.ts`. -/
def violatesOutputPolicy (text : String) : Bool :=
  OUTPUT_BLOCK_PATTERNS.any (fun m => reTest m text.data)

/-! ## The chat route (`router.post` of chat.ts): retrieval, sanitization,
generation with fallback, output screening.

The route is embedded as a pure function of the request together with the
outcomes of its external collaborators: the hybrid-search call (which may
reject), the primary provider attempt, and the fallback provider's text.
The trace records every observable effect: HTTP outcome, messages handed
to the persistence collaborator, whether retrieval ran, the sanitized
context passed to prompt construction, and how often each provider was
invoked.  The provider-label bookkeeping (`Model:` header lines, the
rate-limit cool-down preferring the OpenAI model id) only selects which
model id is labelled "primary" and is not observable in these claims. -/

/-- `MIN_CONTEXT_SCORE`: `Number(process.env.MIN_CONTEXT_SCORE ?? "0.25")`. -/
def MIN_CONTEXT_SCORE : ℚ := 1/4

/-- The fixed 403 refusal body of the input policy. -/
def REFUSAL_TEXT : String :=
  "This question contains restricted information (financial, personal, or security-related) \nand cannot be processed. Please ask about your knowledge base content instead."

/-- The fixed warning persisted instead of a policy-violating output. -/
def WARNING_TEXT : String :=
  "WARNING: This response was blocked because it contains sensitive information that should not be shared."

inductive Role where
  | user
  | assistant
  deriving DecidableEq

structure SavedMessage where
  role : Role
  content : String
  deriving DecidableEq

structure ChatRequest where
  sessionId : String
  /-- result of `ObjectId.isValid(sessionId)` (Mongo driver). -/
  sessionIdValid : Bool
  userMessage : String
  deriving DecidableEq

/-- Outcome of the primary `createStream` attempt: `createThrows` models a
synchronous throw while building/starting the stream; `text` models
`await primaryResult.text` (an `error` is a rejected promise). -/
structure ProviderRun where
  createThrows : Bool
  text : Except String String

inductive ChatOutcome where
  | invalidPayload                  -- 400, missing sessionId / message
  | invalidSession                  -- 400, ObjectId.isValid failed
  | inputBlocked (error : String)   -- 403 with the fixed refusal
  | failed (status : Nat)           -- outer catch: 500 "Chat request failed"
  | streamed (responseText : String) -- piped stream; full text of the body
  deriving DecidableEq

structure ChatTrace where
  outcome : ChatOutcome
  saved : List SavedMessage
  searchInvoked : Bool
  sanitizedContext : Option String
  primaryInvoked : Bool
  fallbackInvoked : Nat
  deriving DecidableEq

/-- The map building `rawContext` from the filtered results:
``Source ${i+1} (${filePath ?? "unknown"}):\n${content}`` joined by
blank lines. -/
def buildRawContext (rs : List HybridSearchResult) : String :=
  String.intercalate "\n\n"
    (rs.mapIdx (fun i r =>
      "Source " ++ toString (i + 1) ++ " (" ++ r.filePath.getD "unknown" ++ "):\n"
        ++ r.content))

/-- The `onFinish` handler's persistence decision: a policy-violating text
is replaced by the fixed warning before being handed to `saveMessage`. -/
def finishSavedContent (text : String) : String :=
  if violatesOutputPolicy text then WARNING_TEXT else text

/-- `router.post("/")` of chat.ts. -/
def chatRoute (req : ChatRequest)
    (ragOutcome : Except String (List HybridSearchResult))
    (minScore : ℚ)
    (openAiKeyConfigured : Bool)
    (primary : ProviderRun)
    (fallbackText : String) : ChatTrace :=
  if jsTrim req.userMessage = "" then
    { outcome := .invalidPayload, saved := [], searchInvoked := false,
      sanitizedContext := none, primaryInvoked := false, fallbackInvoked := 0 }
  else if !req.sessionIdValid then
    { outcome := .invalidSession, saved := [], searchInvoked := false,
      sanitizedContext := none, primaryInvoked := false, fallbackInvoked := 0 }
  else
    let query := jsTrim req.userMessage
    if violatesInputPolicy query then
      { outcome := .inputBlocked REFUSAL_TEXT, saved := [], searchInvoked := false,
        sanitizedContext := none, primaryInvoked := false, fallbackInvoked := 0 }
    else
      let savedUser : List SavedMessage := [⟨.user, query⟩]
      match ragOutcome with
      | .error _ =>
        -- hybridSearch rejected: the outer catch answers 500
        { outcome := .failed 500, saved := savedUser, searchInvoked := true,
          sanitizedContext := none, primaryInvoked := false, fallbackInvoked := 0 }
      | .ok ragResults =>
        let filteredResults := ragResults.filter (fun r => minScore ≤ r.finalScore)
        let rawContext := buildRawContext filteredResults
        let context := sanitizeContextStr rawContext
        -- ensureOpenAiFallback: without OPENAI_API_KEY the original error is
        -- re-thrown (outer catch, 500); otherwise the fallback stream is
        -- created exactly once and piped, its finish event persisting its
        -- text.  `savedSoFar` carries whatever the primary attempt already
        -- handed to the persistence collaborator.
        let fallbackFlow : List SavedMessage → ChatTrace := fun savedSoFar =>
          if !openAiKeyConfigured then
            { outcome := .failed 500, saved := savedSoFar, searchInvoked := true,
              sanitizedContext := some context, primaryInvoked := true,
              fallbackInvoked := 0 }
          else
            { outcome := .streamed fallbackText,
              saved := savedSoFar ++ [⟨.assistant, finishSavedContent fallbackText⟩],
              searchInvoked := true, sanitizedContext := some context,
              primaryInvoked := true, fallbackInvoked := 1 }
        if primary.createThrows then fallbackFlow savedUser
        else
          match primary.text with
          | .error _ => fallbackFlow savedUser
          | .ok t =>
            if jsTrim t = "" then
              -- `await primaryResult.text` buffered the primary stream to
              -- completion, so its `onFinish` already ran on the (empty)
              -- text and handed it to `saveMessage` before the fallback is
              -- created (an empty text never violates the output policy,
              -- but the handler still applies the same screening).
              fallbackFlow (savedUser ++ [⟨.assistant, finishSavedContent t⟩])
            else
              { outcome := .streamed t,
                saved := savedUser ++ [⟨.assistant, finishSavedContent t⟩],
                searchInvoked := true, sanitizedContext := some context,
                primaryInvoked := true, fallbackInvoked := 0 }

/-! ## Ingestion (`routes/injest.ts` + `lib/chunkAndIngest.ts`)

The Chroma collection and the MiniSearch lexical index are modelled as
lists of entries.  The SHA-256 content hash and the
`RecursiveCharacterTextSplitter` are external (Node `crypto`, LangChain)
and are passed in as function parameters.  `addToLexicalIndex` only calls
`miniSearch.addAll(docs)`; modelled from the spec's collaborator
interface (`addAll(docs: {id, content, sourcePath})`) as appending the
documents to the index — nothing in the repository ever deletes from it. -/

structure ChromaEntry where
  id : String
  filePath : String
  fileHash : Nat
  chunkIndex : Nat
  content : String
  deriving DecidableEq

structure LexEntry where
  id : String
  content : String
  filePath : String
  deriving DecidableEq

structure StoreState where
  chroma : List ChromaEntry
  lex : List LexEntry
  deriving DecidableEq

inductive IngestStatus where
  | skipped                    -- res.json({ status: "skipped" })
  | ingested (chunkCount : Nat) -- res.json({ status: "ingested", filePath })
  | errored                    -- ingestTextIntoChroma threw; 500
  deriving DecidableEq

/-- The ingest `router.post` (after PDF extraction and quota checks) plus
`ingestTextIntoChroma`: look up the stored hash of the first chunk with
that `filePath`; if unchanged answer `skipped`; otherwise delete the
source's chunks from the Chroma collection only, then re-chunk and append
to the lexical index and the collection. -/
def ingestSource (hash : String → Nat) (split : String → List String)
    (st : StoreState) (filePath text : String) : StoreState × IngestStatus :=
  let fileHash := hash text
  let existing := st.chroma.filter (fun e => e.filePath = filePath)
  if (existing.head?).map (fun e => e.fileHash) = some fileHash then
    (st, .skipped)
  else
    -- await collection.delete({ where: { filePath } })
    let st1 : StoreState :=
      { st with chroma := st.chroma.filter (fun e => ¬ e.filePath = filePath) }
    if jsTrim text = "" then (st1, .errored)
    else
      let chunks := split text
      if chunks.isEmpty then (st1, .errored)
      else
        let lexDocs := chunks.mapIdx (fun i c =>
          LexEntry.mk (filePath ++ "_" ++ toString i) c filePath)
        let chromaDocs := chunks.mapIdx (fun i c =>
          ChromaEntry.mk (filePath ++ "_" ++ toString i) filePath fileHash i c)
        ({ chroma := st1.chroma ++ chromaDocs, lex := st1.lex ++ lexDocs },
          .ingested chunks.length)

/-- Does the text contain `n` consecutive decimal digits somewhere? -/
def hasDigitRun (n : Nat) (s : List Char) : Bool :=
  s.tails.any (fun t => n ≤ dcount t)

/-- The boundary context after scanning past `u`: its last character, or
the previous context when `u` is empty. -/
def lastCtx (p : Option Char) (u : List Char) : Option Char :=
  match u.getLast? with
  | some c => some c
  | none => p

/-! # Claims -/

/-- **C1** (code bug).  The spec — and the repository's own
`docs/rag-pipeline` document, which presents a normalize-and-merge
implementation for `lib/hybridSearch.ts` — says a candidate retrieved by
both branches is fused into a single entry whose `finalScore` is the sum
of both weighted normalized contributions.  The code never merges: it
concatenates both lists, so the same source+chunk appears twice, each
occurrence scored `weight * rawScore`, and no sum is formed.  Evaluation
at a candidate returned by both branches (semantic distance 1/5, lexical
raw score 2): two separate entries with final scores 3/5 and 14/25 —
neither equals the other's sum nor is any deduplication performed. -/
theorem c1_agreement_not_fused :
    hybridSearch "deep learning"
        (.ok [⟨"Deep learning uses multiple layers", some "doc.md", 1/5⟩])
        [⟨"Deep learning uses multiple layers", "doc.md", 2⟩]
      = .ok [⟨"Deep learning uses multiple layers", some "doc.md", 2, .lexical, 3/5⟩,
             ⟨"Deep learning uses multiple layers", some "doc.md", 4/5, .semantic, 14/25⟩]
    ∧ ((3:ℚ)/5 + 14/25 ≠ 3/5) ∧ ((3:ℚ)/5 + 14/25 ≠ 14/25) := by
  refine ⟨?_, by norm_num, by norm_num⟩
  have hq : (jsTrim "deep learning" = "") = False := by
    simp only [eq_iff_iff, iff_false]
    decide
  norm_num [hybridSearch, hq, semanticToCandidate, lexicalToCandidate,
    withFinalScore, stableSort, stableInsert, byFinalScoreDesc,
    SEMANTIC_WEIGHT, LEXICAL_WEIGHT]

/-- **C2** (code bug).  The spec — and the repository's
`docs/rag-pipeline` document — describe dividing each branch's scores by
the branch maximum before weighting, so every weighted lexical score is at
most `0.3`.  The code multiplies the *raw* score by the weight with no
normalization: a lexical-only result with raw MiniSearch score 4 gets
`finalScore = 4 * 0.3 = 6/5 > 1`, where the claim demands
`0.3 * (4/4) = 3/10`. -/
theorem c2_no_normalization :
    hybridSearch "neural networks" (.ok [])
        [⟨"Neural networks are inspired by the brain", "doc.md", 4⟩]
      = .ok [⟨"Neural networks are inspired by the brain", some "doc.md", 4, .lexical, 4 * LEXICAL_WEIGHT⟩]
    ∧ (4 * LEXICAL_WEIGHT : ℚ) = 6/5 ∧ ((6:ℚ)/5 ≠ 3/10) := by
  refine ⟨?_, by norm_num [LEXICAL_WEIGHT], by norm_num⟩
  have hq : (jsTrim "neural networks" = "") = False := by
    simp only [eq_iff_iff, iff_false]
    decide
  norm_num [hybridSearch, hq, semanticToCandidate, lexicalToCandidate,
    withFinalScore, stableSort, stableInsert, byFinalScoreDesc]

/-- **C3** counterexample.  A failing semantic branch (e.g. a vector-store
timeout) is *not* degraded to lexical-only results: `hybridSearch` has no
try/catch, so the rejection propagates to the caller even though the
lexical branch returned a usable document. -/
theorem c3_counterexample :
    hybridSearch "deep learning" (.error "vector store timeout")
        [⟨"Deep learning uses multiple layers", "doc.md", 2⟩]
      = .error "vector store timeout"
    ∧ ∀ l : List HybridSearchResult,
        (Except.error "vector store timeout" : Except String (List HybridSearchResult)) ≠ .ok l := by
  constructor
  · have hq : (jsTrim "deep learning" = "") = False := by
      simp only [eq_iff_iff, iff_false]
      decide
    simp [hybridSearch, hq]
  · intro l h
    exact Except.noConfusion h

/-- **C3** as amended: when the semantic branch fails, `hybridSearch`
propagates the error to its caller (no lexical-only degradation and no
distinct retrieval-unavailable signal), and the chat route's catch-all
turns the rejection into a plain 500 failure after the user message was
already persisted. -/
theorem c3_amended :
    (∀ (q e : String) (lex : List LexicalRaw),
      jsTrim q ≠ "" → hybridSearch q (.error e) lex = .error e)
    ∧ (∀ (req : ChatRequest) (e : String) (minScore : ℚ) (key : Bool)
        (primary : ProviderRun) (fbText : String),
        jsTrim req.userMessage ≠ "" → req.sessionIdValid = true →
        violatesInputPolicy (jsTrim req.userMessage) = false →
        chatRoute req (.error e) minScore key primary fbText
          = { outcome := .failed 500, saved := [⟨.user, jsTrim req.userMessage⟩],
              searchInvoked := true, sanitizedContext := none,
              primaryInvoked := false, fallbackInvoked := 0 }) := by
  constructor
  · intro q e lex hq
    simp [hybridSearch, hq]
  · intro req e minScore key primary fbText h1 h2 h3
    simp [chatRoute, h1, h2, h3]

/-- **C3** witness for the amended theorem. -/
theorem c3_amended_witness :
    hybridSearch "deep learning" (.error "timeout") [] = .error "timeout"
    ∧ chatRoute ⟨"sid", true, "deep learning"⟩ (.error "timeout") 0 true
        ⟨false, .ok "unused"⟩ "unused"
      = { outcome := .failed 500, saved := [⟨.user, "deep learning"⟩],
          searchInvoked := true, sanitizedContext := none,
          primaryInvoked := false, fallbackInvoked := 0 } := by
  constructor
  · exact c3_amended.1 "deep learning" "timeout" [] (by decide)
  · have h := c3_amended.2 ⟨"sid", true, "deep learning"⟩ "timeout" 0 true
      ⟨false, .ok "unused"⟩ "unused" (by decide) rfl (by decide)
    simpa using h

/-- **C4** counterexample.  With a primary output containing a
credit-card-like 16-digit sequence, the `onFinish` handler replaces only
the *persisted* text: the stream piped back to the caller still carries
the original model output, so "the text … returned for the turn equals
the fixed blocked-response warning" is false. -/
theorem c4_counterexample :
    violatesOutputPolicy "Your card is 4111111111111111." = true
    ∧ (chatRoute ⟨"sid", true, "tell me about cards"⟩ (.ok []) 0 true
        ⟨false, .ok "Your card is 4111111111111111."⟩ "fb").outcome
      = .streamed "Your card is 4111111111111111."
    ∧ (chatRoute ⟨"sid", true, "tell me about cards"⟩ (.ok []) 0 true
        ⟨false, .ok "Your card is 4111111111111111."⟩ "fb").saved
      = [⟨.user, "tell me about cards"⟩, ⟨.assistant, WARNING_TEXT⟩]
    ∧ "Your card is 4111111111111111." ≠ WARNING_TEXT := by
  refine ⟨by decide, ?_, ?_, by decide⟩ <;> decide

/-- **C4** as amended: when the finished full text violates the output
policy, the message handed to the persistence collaborator is the fixed
warning (never the original output), while the HTTP stream returned for
the turn still carries the original text. -/
theorem c4_amended (req : ChatRequest) (results : List HybridSearchResult)
    (minScore : ℚ) (key : Bool) (fbText t : String)
    (h1 : jsTrim req.userMessage ≠ "") (h2 : req.sessionIdValid = true)
    (h3 : violatesInputPolicy (jsTrim req.userMessage) = false)
    (h4 : jsTrim t ≠ "") (h5 : violatesOutputPolicy t = true) :
    (chatRoute req (.ok results) minScore key ⟨false, .ok t⟩ fbText).saved
      = [⟨.user, jsTrim req.userMessage⟩, ⟨.assistant, WARNING_TEXT⟩]
    ∧ (chatRoute req (.ok results) minScore key ⟨false, .ok t⟩ fbText).outcome
      = .streamed t := by
  simp [chatRoute, finishSavedContent, h1, h2, h3, h4, h5]

/-- **C4** witness for the amended theorem. -/
theorem c4_amended_witness :
    (chatRoute ⟨"sid", true, "hi there"⟩ (.ok []) 0 true
        ⟨false, .ok "Card: 4111111111111111."⟩ "fb").saved
      = [⟨.user, "hi there"⟩, ⟨.assistant, WARNING_TEXT⟩]
    ∧ (chatRoute ⟨"sid", true, "hi there"⟩ (.ok []) 0 true
        ⟨false, .ok "Card: 4111111111111111."⟩ "fb").outcome
      = .streamed "Card: 4111111111111111." := by
  have h := c4_amended ⟨"sid", true, "hi there"⟩ [] 0 true "fb"
    "Card: 4111111111111111." (by decide) rfl (by decide) (by decide) (by decide)
  simpa using h

/-- **C5** (confirmed).  If the primary provider's full response text is
empty after trimming, the orchestrator treats it as a failure: with a
fallback configured (`OPENAI_API_KEY` present) the fallback stream is
created exactly once and the finish event's text — the piped response and
the final persisted assistant message — originates from the fallback;
without one, the error propagates and the request ends failed (500), with
no fallback invocation.  Buffering the primary stream to completion fires
its own `onFinish` first, so the persistence collaborator receives the
screened empty primary text before the fallback's message (and it is the
last thing received when no fallback is configured). -/
theorem c5_empty_primary_fallback_once (req : ChatRequest)
    (results : List HybridSearchResult) (minScore : ℚ) (key : Bool)
    (fbText t : String)
    (h1 : jsTrim req.userMessage ≠ "") (h2 : req.sessionIdValid = true)
    (h3 : violatesInputPolicy (jsTrim req.userMessage) = false)
    (h4 : jsTrim t = "") :
    (key = true →
      (chatRoute req (.ok results) minScore key ⟨false, .ok t⟩ fbText).fallbackInvoked = 1
      ∧ (chatRoute req (.ok results) minScore key ⟨false, .ok t⟩ fbText).outcome
          = .streamed fbText
      ∧ (chatRoute req (.ok results) minScore key ⟨false, .ok t⟩ fbText).saved
          = [⟨.user, jsTrim req.userMessage⟩, ⟨.assistant, finishSavedContent t⟩,
             ⟨.assistant, finishSavedContent fbText⟩])
    ∧ (key = false →
      (chatRoute req (.ok results) minScore key ⟨false, .ok t⟩ fbText).outcome = .failed 500
      ∧ (chatRoute req (.ok results) minScore key ⟨false, .ok t⟩ fbText).fallbackInvoked = 0
      ∧ (chatRoute req (.ok results) minScore key ⟨false, .ok t⟩ fbText).saved
          = [⟨.user, jsTrim req.userMessage⟩, ⟨.assistant, finishSavedContent t⟩]) := by
  constructor
  · intro hk
    simp [chatRoute, h1, h2, h3, h4, hk]
  · intro hk
    simp [chatRoute, h1, h2, h3, h4, hk]

/-- **C5** witness. -/
theorem c5_empty_primary_fallback_once_witness :
    (chatRoute ⟨"sid", true, "hello"⟩ (.ok []) 0 true ⟨false, .ok "  "⟩ "from fallback").fallbackInvoked = 1
    ∧ (chatRoute ⟨"sid", true, "hello"⟩ (.ok []) 0 true ⟨false, .ok "  "⟩ "from fallback").outcome
        = .streamed "from fallback"
    ∧ (chatRoute ⟨"sid", true, "hello"⟩ (.ok []) 0 true ⟨false, .ok "  "⟩ "from fallback").saved
        = [⟨.user, "hello"⟩, ⟨.assistant, "  "⟩, ⟨.assistant, "from fallback"⟩]
    ∧ (chatRoute ⟨"sid", true, "hello"⟩ (.ok []) 0 false ⟨false, .ok "  "⟩ "from fallback").outcome
        = .failed 500 := by
  have hT := (c5_empty_primary_fallback_once ⟨"sid", true, "hello"⟩ [] 0 true
    "from fallback" "  " (by decide) rfl (by decide) (by decide)).1 rfl
  have hF := (c5_empty_primary_fallback_once ⟨"sid", true, "hello"⟩ [] 0 false
    "from fallback" "  " (by decide) rfl (by decide) (by decide)).2 rfl
  refine ⟨hT.1, hT.2.1, ?_, hF.1⟩
  rw [hT.2.2]
  decide

/-- **C9** (confirmed).  A syntactically valid chat request whose trimmed
user message matches any blocked-input pattern is rejected with the fixed
403 refusal before any collaborator runs: nothing is persisted, retrieval
never starts, no context is sanitized, and no provider is invoked. -/
theorem c9_input_policy_blocks (req : ChatRequest)
    (rag : Except String (List HybridSearchResult)) (minScore : ℚ)
    (key : Bool) (primary : ProviderRun) (fbText : String)
    (h1 : jsTrim req.userMessage ≠ "") (h2 : req.sessionIdValid = true)
    (h3 : violatesInputPolicy (jsTrim req.userMessage) = true) :
    chatRoute req rag minScore key primary fbText
      = { outcome := .inputBlocked REFUSAL_TEXT, saved := [],
          searchInvoked := false, sanitizedContext := none,
          primaryInvoked := false, fallbackInvoked := 0 } := by
  simp [chatRoute, h1, h2, h3]

/-- **C9** witness: "what is my password" trips the credentials pattern. -/
theorem c9_input_policy_blocks_witness :
    violatesInputPolicy "what is my password" = true
    ∧ chatRoute ⟨"sid", true, "what is my password"⟩ (.ok []) 0 true
        ⟨false, .ok "unused"⟩ "unused"
      = { outcome := .inputBlocked REFUSAL_TEXT, saved := [],
          searchInvoked := false, sanitizedContext := none,
          primaryInvoked := false, fallbackInvoked := 0 } := by
  refine ⟨by decide, ?_⟩
  exact c9_input_policy_blocks ⟨"sid", true, "what is my password"⟩ (.ok []) 0 true
    ⟨false, .ok "unused"⟩ "unused" (by decide) rfl (by decide)

/-- **C10** (confirmed).  Only retrieval results with
`finalScore ≥ minScore` (default `MIN_CONTEXT_SCORE = 0.25`) enter the raw
context handed to sanitization and prompt construction; the rest are
silently dropped, and when everything is dropped the request proceeds to
generation with an empty sanitized context instead of failing. -/
theorem c10_min_context_score (req : ChatRequest)
    (results : List HybridSearchResult) (minScore : ℚ) (key : Bool)
    (primary : ProviderRun) (fbText : String)
    (h1 : jsTrim req.userMessage ≠ "") (h2 : req.sessionIdValid = true)
    (h3 : violatesInputPolicy (jsTrim req.userMessage) = false) :
    (chatRoute req (.ok results) minScore key primary fbText).sanitizedContext
      = some (sanitizeContextStr
          (buildRawContext (results.filter (fun r => minScore ≤ r.finalScore))))
    ∧ (∀ r : HybridSearchResult,
        r ∈ results.filter (fun r => minScore ≤ r.finalScore)
          ↔ r ∈ results ∧ minScore ≤ r.finalScore)
    ∧ (results.filter (fun r => minScore ≤ r.finalScore) = [] →
        (chatRoute req (.ok results) minScore key primary fbText).sanitizedContext
          = some "")
    ∧ (chatRoute req (.ok results) minScore key primary fbText).primaryInvoked = true
    ∧ MIN_CONTEXT_SCORE = 1/4 := by
  have hroute :
      (chatRoute req (.ok results) minScore key primary fbText).sanitizedContext
        = some (sanitizeContextStr
            (buildRawContext (results.filter (fun r => minScore ≤ r.finalScore))))
      ∧ (chatRoute req (.ok results) minScore key primary fbText).primaryInvoked = true := by
    cases hcr : primary.createThrows <;>
      rcases htx : primary.text with e | t <;>
        simp [chatRoute, h1, h2, h3, hcr, htx] <;>
          by_cases hkey : key <;> simp [hkey] <;>
            by_cases ht : jsTrim t = "" <;> simp [ht, hkey]
  refine ⟨hroute.1, ?_, ?_, hroute.2, rfl⟩
  · intro r
    simp [List.mem_filter]
  · intro hempty
    rw [hroute.1, hempty]
    have : sanitizeContextStr (buildRawContext []) = "" := by decide
    rw [this]

/-- **C10** witness: a single result scoring 1/10 is below the default
threshold 1/4, so the context is empty and generation still runs. -/
theorem c10_min_context_score_witness :
    (chatRoute ⟨"sid", true, "hello"⟩
        (.ok [⟨"chunk", some "f", 1/10, .lexical, 1/10⟩]) MIN_CONTEXT_SCORE true
        ⟨false, .ok "answer"⟩ "fb").sanitizedContext = some ""
    ∧ (chatRoute ⟨"sid", true, "hello"⟩
        (.ok [⟨"chunk", some "f", 1/10, .lexical, 1/10⟩]) MIN_CONTEXT_SCORE true
        ⟨false, .ok "answer"⟩ "fb").primaryInvoked = true := by
  have h := c10_min_context_score ⟨"sid", true, "hello"⟩
    [⟨"chunk", some "f", 1/10, .lexical, 1/10⟩] MIN_CONTEXT_SCORE true
    ⟨false, .ok "answer"⟩ "fb" (by decide) rfl (by decide)
  have hempty : ([⟨"chunk", some "f", 1/10, .lexical, 1/10⟩] : List HybridSearchResult).filter
      (fun r => MIN_CONTEXT_SCORE ≤ r.finalScore) = [] := by
    simp [List.filter, MIN_CONTEXT_SCORE]
    norm_num
  exact ⟨h.2.2.1 hempty, h.2.2.2.1⟩

/-- Every element of `l.mapIdx f` satisfies any property enjoyed by all
`f i a`. -/
theorem forall_mem_mapIdx {α β : Type} (f : Nat → α → β) (P : β → Prop)
    (h : ∀ i a, P (f i a)) :
    ∀ (l : List α), ∀ b ∈ l.mapIdx f, P b := by
  intro l
  induction l generalizing f with
  | nil => simp
  | cons a l ih =>
    intro b hb
    rw [List.mapIdx_cons] at hb
    rcases List.mem_cons.mp hb with hb | hb
    · exact hb ▸ h 0 a
    · exact ih (fun i => f (i + 1)) (fun i a => h (i + 1) a) b hb

/-- **C7** counterexample.  Re-ingesting `"f"` with changed content
(`"abc"` then `"wxyz"`, distinct hashes) performs delete-then-reinsert in
the Chroma collection only: the lexical index keeps the stale `"abc"`
chunk next to the new one (both under id `"f_0"`), so "full
delete-then-reinsert of that source's chunks in both stores" is false. -/
theorem c7_counterexample :
    (ingestSource (fun s => s.data.length) (fun s => [s])
        ((ingestSource (fun s => s.data.length) (fun s => [s]) ⟨[], []⟩ "f" "abc").1)
        "f" "wxyz").1
      = { chroma := [⟨"f_0", "f", 4, 0, "wxyz"⟩],
          lex := [⟨"f_0", "abc", "f"⟩, ⟨"f_0", "wxyz", "f"⟩] }
    ∧ (⟨"f_0", "abc", "f"⟩ : LexEntry)
        ∈ (ingestSource (fun s => s.data.length) (fun s => [s])
            ((ingestSource (fun s => s.data.length) (fun s => [s]) ⟨[], []⟩ "f" "abc").1)
            "f" "wxyz").1.lex := by
  constructor <;> decide

/-- **C7** as amended.  Re-ingesting the same `(sourcePath, text)` pair
after a successful ingestion is a no-op — the unchanged content hash makes
the route answer `skipped` and neither store is touched, so no entries are
duplicated and the chunk count is unchanged.  Changed content (hash
mismatch) triggers delete-then-reinsert in the Vector Store **only**: the
Lexical Index is never purged, the new chunks are appended after the stale
ones. -/
theorem c7_amended (hash : String → Nat) (split : String → List String) :
    (∀ (st : StoreState) (fp t : String) (st' : StoreState) (n : Nat),
      ingestSource hash split st fp t = (st', .ingested n) →
      ingestSource hash split st' fp t = (st', .skipped))
    ∧ (∀ (st : StoreState) (fp t : String),
      ((st.chroma.filter (fun e => e.filePath = fp)).head?).map (fun e => e.fileHash)
          ≠ some (hash t) →
      jsTrim t ≠ "" → split t ≠ [] →
      ingestSource hash split st fp t
        = ({ chroma := st.chroma.filter (fun e => ¬ e.filePath = fp)
               ++ (split t).mapIdx (fun i c => ⟨fp ++ "_" ++ toString i, fp, hash t, i, c⟩),
             lex := st.lex
               ++ (split t).mapIdx (fun i c => ⟨fp ++ "_" ++ toString i, c, fp⟩) },
           .ingested (split t).length)) := by
  have hB : ∀ (st : StoreState) (fp t : String),
      ((st.chroma.filter (fun e => e.filePath = fp)).head?).map (fun e => e.fileHash)
          ≠ some (hash t) →
      jsTrim t ≠ "" → split t ≠ [] →
      ingestSource hash split st fp t
        = ({ chroma := st.chroma.filter (fun e => ¬ e.filePath = fp)
               ++ (split t).mapIdx (fun i c => ⟨fp ++ "_" ++ toString i, fp, hash t, i, c⟩),
             lex := st.lex
               ++ (split t).mapIdx (fun i c => ⟨fp ++ "_" ++ toString i, c, fp⟩) },
           .ingested (split t).length) := by
    intro st fp t hne ht hc
    unfold ingestSource
    rw [if_neg hne, if_neg ht]
    cases hsp : split t with
    | nil => exact absurd hsp hc
    | cons c0 cs => simp
  refine ⟨?_, hB⟩
  intro st fp t st' n H
  unfold ingestSource at H
  by_cases hskip :
      ((st.chroma.filter (fun e => e.filePath = fp)).head?).map (fun e => e.fileHash)
        = some (hash t)
  · rw [if_pos hskip] at H
    simp at H
  · rw [if_neg hskip] at H
    by_cases htr : jsTrim t = ""
    · rw [if_pos htr] at H
      simp at H
    · rw [if_neg htr] at H
      cases hsp : split t with
      | nil =>
        rw [hsp] at H
        simp at H
      | cons c0 cs =>
        rw [hsp] at H
        simp only [List.isEmpty_cons, Bool.false_eq_true, if_false, Prod.mk.injEq] at H
        obtain ⟨hst, -⟩ := H
        subst hst
        unfold ingestSource
        have hfilter :
            ((st.chroma.filter (fun e => ¬ e.filePath = fp)
                ++ (c0 :: cs).mapIdx (fun i c =>
                  (⟨fp ++ "_" ++ toString i, fp, hash t, i, c⟩ : ChromaEntry))).filter
              (fun e => e.filePath = fp))
            = (c0 :: cs).mapIdx (fun i c =>
                (⟨fp ++ "_" ++ toString i, fp, hash t, i, c⟩ : ChromaEntry)) := by
          rw [List.filter_append]
          have h1 : (st.chroma.filter (fun e => ¬ e.filePath = fp)).filter
              (fun e => e.filePath = fp) = [] := by
            rw [List.filter_eq_nil_iff]
            intro a ha
            rcases List.mem_filter.mp ha with ⟨-, hpa⟩
            simp only [decide_eq_true_eq] at hpa ⊢
            exact hpa
          have h2 : ((c0 :: cs).mapIdx (fun i c =>
              (⟨fp ++ "_" ++ toString i, fp, hash t, i, c⟩ : ChromaEntry))).filter
              (fun e => e.filePath = fp)
              = (c0 :: cs).mapIdx (fun i c => ⟨fp ++ "_" ++ toString i, fp, hash t, i, c⟩) := by
            rw [List.filter_eq_self]
            intro b hb
            have hP := forall_mem_mapIdx
              (fun i c => (⟨fp ++ "_" ++ toString i, fp, hash t, i, c⟩ : ChromaEntry))
              (fun e => e.filePath = fp) (fun i a => rfl) (c0 :: cs) b hb
            simpa using hP
          rw [h1, h2, List.nil_append]
        rw [hfilter]
        simp [List.mapIdx_cons]

/-- **C7** witness: the amended theorem applied to a concrete two-step
re-ingestion. -/
theorem c7_amended_witness :
    ingestSource (fun s => s.data.length) (fun s => [s])
        ({ chroma := [⟨"f_0", "f", 3, 0, "abc"⟩], lex := [⟨"f_0", "abc", "f"⟩] })
        "f" "abc"
      = ({ chroma := [⟨"f_0", "f", 3, 0, "abc"⟩], lex := [⟨"f_0", "abc", "f"⟩] }, .skipped)
    ∧ ingestSource (fun s => s.data.length) (fun s => [s])
        ({ chroma := [⟨"f_0", "f", 3, 0, "abc"⟩], lex := [⟨"f_0", "abc", "f"⟩] })
        "f" "wxyz"
      = ({ chroma := [⟨"f_0", "f", 4, 0, "wxyz"⟩],
           lex := [⟨"f_0", "abc", "f"⟩, ⟨"f_0", "wxyz", "f"⟩] }, .ingested 1) := by
  constructor
  · exact (c7_amended (fun s => s.data.length) (fun s => [s])).1
      ⟨[], []⟩ "f" "abc"
      ({ chroma := [⟨"f_0", "f", 3, 0, "abc"⟩], lex := [⟨"f_0", "abc", "f"⟩] }) 1
      (by decide)
  · have h := (c7_amended (fun s => s.data.length) (fun s => [s])).2
      ({ chroma := [⟨"f_0", "f", 3, 0, "abc"⟩], lex := [⟨"f_0", "abc", "f"⟩] })
      "f" "wxyz" (by decide) (by decide) (by decide)
    simpa using h

/-- A global replace leaves the text unchanged when the pattern matches
nowhere (the replace scan and the `test` scan walk the same contexts). -/
theorem replaceGFuel_of_no_match (m : Matcher) (repl : List Char) :
    ∀ (s : List Char) (fuel : Nat) (prev : Option Char),
      searchM m prev s = false → replaceGFuel m repl fuel prev s = s := by
  intro s
  induction s with
  | nil =>
    intro fuel prev _
    cases fuel <;> rfl
  | cons c rest ih =>
    intro fuel prev h
    cases fuel with
    | zero => rfl
    | succ f =>
      rw [searchM, Bool.or_eq_false_iff] at h
      have hnone : m prev (c :: rest) = none := by
        rcases hm : m prev (c :: rest) with - | k
        · rfl
        · rw [hm] at h
          simp at h
      simp only [replaceGFuel, hnone]
      exact congrArg (c :: ·) (ih f (some c) h.2)

/-- A first-occurrence replace leaves the text unchanged when the pattern
matches nowhere. -/
theorem replaceFirstAux_of_no_match (m : Matcher) (repl : List Char) :
    ∀ (s : List Char) (prev : Option Char),
      searchM m prev s = false → replaceFirstAux m repl prev s = s := by
  intro s
  induction s with
  | nil => intro prev _; rfl
  | cons c rest ih =>
    intro prev h
    rw [searchM, Bool.or_eq_false_iff] at h
    have hnone : m prev (c :: rest) = none := by
      rcases hm : m prev (c :: rest) with - | k
      · rfl
      · rw [hm] at h
        simp at h
    simp only [replaceFirstAux, hnone]
    exact congrArg (c :: ·) (ih (some c) h.2)

theorem splitNL_ne_nil : ∀ s : List Char, splitNL s ≠ [] := by
  intro s
  induction s with
  | nil => simp [splitNL]
  | cons c rest ih =>
    by_cases hc : c = '\n'
    · simp [splitNL, hc]
    · simp only [splitNL, if_neg hc]
      cases hd : splitNL rest <;> simp

/-- `join("\n")` inverts `split("\n")`. -/
theorem joinNL_splitNL : ∀ s : List Char, joinNL (splitNL s) = s := by
  intro s
  induction s with
  | nil => rfl
  | cons c rest ih =>
    by_cases hc : c = '\n'
    · subst hc
      simp only [splitNL, if_pos rfl]
      cases hd : splitNL rest with
      | nil => exact absurd hd (splitNL_ne_nil rest)
      | cons h t =>
        rw [hd] at ih
        show '\n' :: joinNL (h :: t) = '\n' :: rest
        exact congrArg ('\n' :: ·) ih
    · simp only [splitNL, if_neg hc]
      cases hd : splitNL rest with
      | nil => exact absurd hd (splitNL_ne_nil rest)
      | cons h t =>
        rw [hd] at ih
        cases t with
        | nil =>
          have hh : h = rest := by simpa [joinNL] using ih
          show c :: h = c :: rest
          exact congrArg (c :: ·) hh
        | cons h2 t2 =>
          show (c :: h) ++ '\n' :: joinNL (h2 :: t2) = c :: rest
          rw [List.cons_append]
          exact congrArg (c :: ·) ih

/-- The pattern-redaction fold is the identity when none of its patterns
tests positive on the text. -/
theorem redactStage_of_clean :
    ∀ (ps : List SencPat) (s : List Char),
      (∀ p ∈ ps, reTest p.m s = false) → ps.foldl applySencPat s = s := by
  intro ps
  induction ps with
  | nil => intro s _; rfl
  | cons p ps ih =>
    intro s h
    have hp : reTest p.m s = false := h p (List.mem_cons_self p ps)
    have hstep : applySencPat s p = s := by
      unfold applySencPat
      by_cases hg : p.global = true
      · rw [if_pos hg]
        exact replaceGFuel_of_no_match p.m REDACTED s s.length none hp
      · rw [if_neg hg]
        exact replaceFirstAux_of_no_match p.m REDACTED s none hp
    rw [List.foldl_cons, hstep]
    exact ih s (fun q hq => h q (List.mem_cons_of_mem p hq))

/-- The semantic-redaction fold is the identity when none of its patterns
tests positive on the text. -/
theorem semanticRedact_of_clean :
    ∀ (ms : List Matcher) (s : List Char),
      (∀ m ∈ ms, reTest m s = false) →
      ms.foldl (fun acc m => if reTest m acc then replaceG m REDACTED acc else acc) s = s := by
  intro ms
  induction ms with
  | nil => intro s _; rfl
  | cons m ms ih =>
    intro s h
    rw [List.foldl_cons, if_neg (by simp [h m (List.mem_cons_self m ms)])]
    exact ih s (fun q hq => h q (List.mem_cons_of_mem m hq))

/-- **C8** (confirmed).  On input where no sensitive-context pattern, no
instruction-injection cue and no semantic-redaction pattern matches, the
sanitizer is the identity; the empty string maps to the empty string and
its safety validation is all-clear. -/
theorem c8_identity_on_clean (s : String)
    (h1 : ∀ p ∈ SENSITIVE_CONTEXT_PATTERNS, reTest p.m s.data = false)
    (h2 : ∀ line ∈ splitNL s.data, lineBlocked line = false)
    (h3 : ∀ m ∈ semanticPatterns, reTest m s.data = false) :
    sanitizeContextStr s = s
    ∧ sanitizeContextStr "" = ""
    ∧ validateContextSafety (sanitizeContext ("").data) = ⟨true, []⟩ := by
  refine ⟨?_, by decide, by decide⟩
  have hr : redactStage s.data = s.data := redactStage_of_clean _ _ h1
  have hf : filterInstructionContent s.data = s.data := by
    unfold filterInstructionContent
    rw [List.filter_eq_self.mpr ?_, joinNL_splitNL]
    intro l hl
    simp [h2 l hl]
  have hs : semanticRedactContext s.data = s.data := semanticRedact_of_clean _ _ h3
  unfold sanitizeContextStr sanitizeContext
  rw [hr, hf, hs]

/-- **C8** witness: a clean text is returned verbatim. -/
theorem c8_identity_on_clean_witness :
    sanitizeContextStr "hello retrieval world" = "hello retrieval world"
    ∧ sanitizeContextStr "" = ""
    ∧ validateContextSafety (sanitizeContext ("").data) = ⟨true, []⟩ :=
  c8_identity_on_clean "hello retrieval world" (by decide) (by decide) (by decide)

/-! ### Behaviour of the digit-run redaction (`/\b\d{lo,hi}\b/g`) -/

theorem digitRunMatcher_of_word {lo hi : Nat} {prev : Option Char}
    {s : List Char} (h : isWordOpt prev = true) :
    digitRunMatcher lo hi prev s = none := by
  simp [digitRunMatcher, h]

theorem digitRunMatcher_of_dcount_zero {lo hi : Nat} (hlo : 1 ≤ lo)
    {prev : Option Char} {s : List Char} (h : dcount s = 0) :
    digitRunMatcher lo hi prev s = none := by
  have hc : ¬(lo ≤ dcount s ∧ dcount s ≤ hi ∧ boundaryAt s (dcount s) = true) := by
    rintro ⟨h1, -, -⟩
    omega
  by_cases hw : isWordOpt prev = true
  · exact digitRunMatcher_of_word hw
  · simp only [digitRunMatcher]
    rw [if_neg hw, if_neg hc]

theorem digitRunMatcher_some {lo hi : Nat} {prev : Option Char}
    {s : List Char} {k : Nat} (h : digitRunMatcher lo hi prev s = some k) :
    isWordOpt prev = false ∧ k = dcount s ∧ lo ≤ k ∧ k ≤ hi
      ∧ boundaryAt s k = true := by
  by_cases hw : isWordOpt prev = true
  · rw [digitRunMatcher_of_word hw] at h
    exact absurd h (by simp)
  · simp only [digitRunMatcher] at h
    rw [if_neg hw] at h
    by_cases hcond : lo ≤ dcount s ∧ dcount s ≤ hi ∧ boundaryAt s (dcount s) = true
    · rw [if_pos hcond] at h
      injection h with hk
      subst hk
      exact ⟨by simpa using hw, rfl, hcond.1, hcond.2.1, hcond.2.2⟩
    · rw [if_neg hcond] at h
      exact absurd h (by simp)

theorem digitRunMatcher_none_of_cond {lo hi : Nat} {prev : Option Char}
    {s : List Char}
    (hcond : ¬(lo ≤ dcount s ∧ dcount s ≤ hi ∧ boundaryAt s (dcount s) = true)) :
    digitRunMatcher lo hi prev s = none := by
  by_cases hw : isWordOpt prev = true
  · exact digitRunMatcher_of_word hw
  · simp only [digitRunMatcher]
    rw [if_neg hw, if_neg hcond]

theorem digitRunMatcher_none_elim {lo hi : Nat} {prev : Option Char}
    {s : List Char} (hw : isWordOpt prev = false)
    (h : digitRunMatcher lo hi prev s = none) :
    ¬(lo ≤ dcount s ∧ dcount s ≤ hi ∧ boundaryAt s (dcount s) = true) := by
  intro hcond
  simp [digitRunMatcher, hw, hcond] at h

theorem isWordChar_of_digit {c : Char} (h : c.isDigit = true) :
    isWordChar c = true := by
  simp [isWordChar, Char.isAlphanum, h]

theorem dcount_nil : dcount [] = 0 := rfl

theorem dcount_cons_digit {c : Char} (h : c.isDigit = true) (rest : List Char) :
    dcount (c :: rest) = dcount rest + 1 := by
  simp [dcount, List.takeWhile_cons, h]

theorem dcount_cons_nondigit {c : Char} (h : c.isDigit = false) (rest : List Char) :
    dcount (c :: rest) = 0 := by
  simp [dcount, List.takeWhile_cons, h]

theorem lastCtx_nil (p : Option Char) : lastCtx p [] = p := rfl

theorem lastCtx_cons : ∀ (u : List Char) (p : Option Char) (c : Char),
    lastCtx p (c :: u) = lastCtx (some c) u := by
  intro u
  induction u with
  | nil => intro p c; rfl
  | cons d u' ih =>
    intro p c
    have h1 : lastCtx p (c :: d :: u') = lastCtx p (d :: u') := by
      unfold lastCtx
      rw [List.getLast?_cons_cons]
    rw [h1, ih p d, ih (some c) d]

theorem lastCtx_word {p : Option Char} {u : List Char}
    (hp : isWordOpt p = true) (hu : ∀ c ∈ u, c.isDigit = true) :
    isWordOpt (lastCtx p u) = true := by
  induction u generalizing p with
  | nil => simpa [lastCtx_nil] using hp
  | cons c u ih =>
    rw [lastCtx_cons]
    exact ih (isWordChar_of_digit (hu c (List.mem_cons_self c u)))
      (fun d hd => hu d (List.mem_cons_of_mem c hd))

theorem getLast?_word_of_digits :
    ∀ (u : List Char), u ≠ [] → (∀ c ∈ u, c.isDigit = true) →
      isWordOpt u.getLast? = true := by
  intro u
  induction u with
  | nil => intro h; exact absurd rfl h
  | cons c u ih =>
    intro _ hu
    cases u with
    | nil =>
      rw [List.getLast?_singleton]
      exact isWordChar_of_digit (hu c (List.mem_cons_self c []))
    | cons d u' =>
      rw [List.getLast?_cons_cons]
      exact ih (by simp) (fun x hx => hu x (List.mem_cons_of_mem c hx))

theorem take_takeWhile_length (p : Char → Bool) :
    ∀ l : List Char, l.take ((l.takeWhile p).length) = l.takeWhile p := by
  intro l
  induction l with
  | nil => rfl
  | cons a l ih =>
    by_cases hp : p a
    · simp [List.takeWhile_cons, hp, ih]
    · simp [List.takeWhile_cons, hp]

theorem drop_takeWhile_length (p : Char → Bool) :
    ∀ l : List Char, l.drop ((l.takeWhile p).length) = l.dropWhile p := by
  intro l
  induction l with
  | nil => rfl
  | cons a l ih =>
    by_cases hp : p a
    · simp [List.takeWhile_cons, List.dropWhile_cons, hp, ih]
    · simp [List.takeWhile_cons, List.dropWhile_cons, hp]

theorem head_dropWhile_false (p : Char → Bool) :
    ∀ (l : List Char) (x : Char), (l.dropWhile p).head? = some x → p x = false := by
  intro l
  induction l with
  | nil =>
    intro x h
    simp at h
  | cons c l ih =>
    intro x h
    by_cases hp : p c
    · rw [List.dropWhile_cons, if_pos hp] at h
      exact ih x h
    · rw [List.dropWhile_cons, if_neg hp] at h
      simp only [List.head?_cons, Option.some.injEq] at h
      rw [← h]
      exact Bool.not_eq_true _ ▸ (by simpa using hp)

theorem dcount_append_digits {u w : List Char}
    (hu : ∀ c ∈ u, c.isDigit = true)
    (hw : ∀ x, w.head? = some x → x.isDigit = false) :
    dcount (u ++ w) = u.length := by
  induction u with
  | nil =>
    cases w with
    | nil => rfl
    | cons x w' =>
      simpa using dcount_cons_nondigit (hw x rfl) w'
  | cons c u ih =>
    rw [List.cons_append, dcount_cons_digit (hu c (List.mem_cons_self c u))]
    rw [ih (fun d hd => hu d (List.mem_cons_of_mem c hd))]
    simp

/-- Scanning under a word-character context preserves the head. -/
theorem replaceGFuel_head_of_word {lo hi : Nat} (repl : List Char)
    {p : Option Char} (hp : isWordOpt p = true) :
    ∀ (f : Nat) (t : List Char),
      (replaceGFuel (digitRunMatcher lo hi) repl f p t).head? = t.head? := by
  intro f t
  cases f with
  | zero => rfl
  | succ f =>
    cases t with
    | nil => rfl
    | cons c rest => simp [replaceGFuel, digitRunMatcher_of_word hp]

/-- A digit-run scan through a non-digit block just shifts the context. -/
theorem searchM_append_nondigit {lo hi : Nat} (hlo : 1 ≤ lo) :
    ∀ (u : List Char), (∀ c ∈ u, c.isDigit = false) →
      ∀ (p : Option Char) (t : List Char),
        searchM (digitRunMatcher lo hi) p (u ++ t)
          = searchM (digitRunMatcher lo hi) (lastCtx p u) t := by
  intro u
  induction u with
  | nil => intro _ p t; rfl
  | cons c u ih =>
    intro hu p t
    rw [List.cons_append, searchM,
      digitRunMatcher_of_dcount_zero hlo
        (dcount_cons_nondigit (hu c (List.mem_cons_self c u)) (u ++ t)),
      lastCtx_cons]
    simp only [Option.isSome_none, Bool.false_or]
    exact ih (fun d hd => hu d (List.mem_cons_of_mem c hd)) (some c) t

/-- The context left of a non-digit (or empty) suffix is irrelevant to the
digit-run scan. -/
theorem searchM_prev_irrelevant {lo hi : Nat} (hlo : 1 ≤ lo) {t : List Char}
    (ht : ∀ x, t.head? = some x → x.isDigit = false) (p q : Option Char) :
    searchM (digitRunMatcher lo hi) p t = searchM (digitRunMatcher lo hi) q t := by
  cases t with
  | nil => simp [searchM, digitRunMatcher_of_dcount_zero hlo dcount_nil]
  | cons c rest =>
    have hc : c.isDigit = false := ht c rfl
    rw [searchM, searchM,
      digitRunMatcher_of_dcount_zero hlo (dcount_cons_nondigit hc rest),
      digitRunMatcher_of_dcount_zero hlo (dcount_cons_nondigit hc rest)]

/-- Under a word-character context the scan copies the leading digit run
verbatim and continues after it. -/
theorem replaceGFuel_digit_prefix {lo hi : Nat} (repl : List Char) :
    ∀ (s : List Char) (f : Nat) (p : Option Char), isWordOpt p = true →
      replaceGFuel (digitRunMatcher lo hi) repl f p s
        = s.takeWhile Char.isDigit
          ++ replaceGFuel (digitRunMatcher lo hi) repl (f - dcount s)
              (lastCtx p (s.takeWhile Char.isDigit)) (s.dropWhile Char.isDigit) := by
  intro s
  induction s with
  | nil =>
    intro f p hp
    cases f <;> rfl
  | cons c rest ih =>
    intro f p hp
    by_cases hc : c.isDigit = true
    · have hword : isWordOpt (some c) = true := isWordChar_of_digit hc
      cases f with
      | zero =>
        simp [List.takeWhile_cons, hc, replaceGFuel,
          List.takeWhile_append_dropWhile]
      | succ f =>
        have hstep :
            replaceGFuel (digitRunMatcher lo hi) repl (f + 1) p (c :: rest)
              = c :: replaceGFuel (digitRunMatcher lo hi) repl f (some c) rest := by
          simp [replaceGFuel, digitRunMatcher_of_word hp]
        rw [hstep, ih f (some c) hword]
        simp [List.takeWhile_cons, List.dropWhile_cons, hc,
          dcount_cons_digit hc, Nat.succ_sub_succ, lastCtx_cons]
    · have hc' : c.isDigit = false := by simpa using hc
      simp [List.takeWhile_cons, List.dropWhile_cons, hc',
        dcount_cons_nondigit hc', lastCtx_nil]

/-- After the global replace of `/\b\d{lo,hi}\b/` no word-isolated digit
run of a length in `[lo, hi]` remains: every such run of the input is
consumed whole (matches can neither start nor stop inside a maximal digit
run), and the replacement marker neither contains digits nor glues digit
runs together. -/
theorem searchM_replaceGFuel_digit {lo hi : Nat} (hlo : 1 ≤ lo) :
    ∀ (f : Nat) (s : List Char) (p : Option Char), s.length ≤ f →
      searchM (digitRunMatcher lo hi) p
        (replaceGFuel (digitRunMatcher lo hi) REDACTED f p s) = false := by
  intro f
  induction f with
  | zero =>
    intro s p hf
    have hs : s = [] := List.length_eq_zero.mp (Nat.le_zero.mp hf)
    subst hs
    rw [show replaceGFuel (digitRunMatcher lo hi) REDACTED 0 p [] = [] from rfl,
      searchM, digitRunMatcher_of_dcount_zero hlo dcount_nil]
    rfl
  | succ f ih =>
    intro s p hf
    cases s with
    | nil =>
      rw [show replaceGFuel (digitRunMatcher lo hi) REDACTED (f + 1) p [] = [] from rfl,
        searchM, digitRunMatcher_of_dcount_zero hlo dcount_nil]
      rfl
    | cons c rest =>
      rcases hm : digitRunMatcher lo hi p (c :: rest) with - | k
      · -- no match at this position
        have hout : replaceGFuel (digitRunMatcher lo hi) REDACTED (f + 1) p (c :: rest)
            = c :: replaceGFuel (digitRunMatcher lo hi) REDACTED f (some c) rest := by
          simp [replaceGFuel, hm]
        rw [hout, searchM,
          ih rest (some c) (by simpa using hf), Bool.or_false]
        by_cases hw : isWordOpt p = true
        · rw [digitRunMatcher_of_word hw]
          rfl
        · have hw' : isWordOpt p = false := by simpa using hw
          by_cases hc : c.isDigit = true
          · have hdecomp : replaceGFuel (digitRunMatcher lo hi) REDACTED f (some c) rest
                = rest.takeWhile Char.isDigit
                  ++ replaceGFuel (digitRunMatcher lo hi) REDACTED (f - dcount rest)
                      (lastCtx (some c) (rest.takeWhile Char.isDigit))
                      (rest.dropWhile Char.isDigit) :=
              replaceGFuel_digit_prefix REDACTED rest f (some c) (isWordChar_of_digit hc)
            have hudig : ∀ x ∈ rest.takeWhile Char.isDigit, x.isDigit = true :=
              fun x hx => List.mem_takeWhile_imp hx
            have hctxw : isWordOpt (lastCtx (some c) (rest.takeWhile Char.isDigit)) = true :=
              lastCtx_word (isWordChar_of_digit hc) hudig
            have hwhead : (replaceGFuel (digitRunMatcher lo hi) REDACTED (f - dcount rest)
                (lastCtx (some c) (rest.takeWhile Char.isDigit))
                (rest.dropWhile Char.isDigit)).head?
                = (rest.dropWhile Char.isDigit).head? :=
              replaceGFuel_head_of_word REDACTED hctxw _ _
            have hwnd : ∀ x, (replaceGFuel (digitRunMatcher lo hi) REDACTED (f - dcount rest)
                (lastCtx (some c) (rest.takeWhile Char.isDigit))
                (rest.dropWhile Char.isDigit)).head? = some x → x.isDigit = false := by
              intro x hx
              rw [hwhead] at hx
              exact head_dropWhile_false Char.isDigit rest x hx
            have hdc_out : dcount (c :: (rest.takeWhile Char.isDigit
                ++ replaceGFuel (digitRunMatcher lo hi) REDACTED (f - dcount rest)
                    (lastCtx (some c) (rest.takeWhile Char.isDigit))
                    (rest.dropWhile Char.isDigit)))
                = dcount (c :: rest) := by
              rw [dcount_cons_digit hc, dcount_cons_digit hc,
                dcount_append_digits hudig hwnd]
              rfl
            have hb_out : boundaryAt (c :: (rest.takeWhile Char.isDigit
                ++ replaceGFuel (digitRunMatcher lo hi) REDACTED (f - dcount rest)
                    (lastCtx (some c) (rest.takeWhile Char.isDigit))
                    (rest.dropWhile Char.isDigit)))
                  (dcount (c :: rest))
                = boundaryAt (c :: rest) (dcount (c :: rest)) := by
              rw [dcount_cons_digit hc]
              unfold boundaryAt
              have hul : dcount rest = (rest.takeWhile Char.isDigit).length := rfl
              have ht1 : (c :: (rest.takeWhile Char.isDigit
                  ++ replaceGFuel (digitRunMatcher lo hi) REDACTED (f - dcount rest)
                      (lastCtx (some c) (rest.takeWhile Char.isDigit))
                      (rest.dropWhile Char.isDigit))).take (dcount rest + 1)
                  = c :: rest.takeWhile Char.isDigit := by
                rw [List.take_succ_cons, hul, List.take_left]
              have ht2 : (c :: rest).take (dcount rest + 1)
                  = c :: rest.takeWhile Char.isDigit := by
                rw [List.take_succ_cons]
                exact congrArg (c :: ·) (take_takeWhile_length Char.isDigit rest)
              have hd1 : (c :: (rest.takeWhile Char.isDigit
                  ++ replaceGFuel (digitRunMatcher lo hi) REDACTED (f - dcount rest)
                      (lastCtx (some c) (rest.takeWhile Char.isDigit))
                      (rest.dropWhile Char.isDigit))).drop (dcount rest + 1)
                  = replaceGFuel (digitRunMatcher lo hi) REDACTED (f - dcount rest)
                      (lastCtx (some c) (rest.takeWhile Char.isDigit))
                      (rest.dropWhile Char.isDigit) := by
                rw [List.drop_succ_cons, hul, List.drop_left]
              have hd2 : (c :: rest).drop (dcount rest + 1) = rest.dropWhile Char.isDigit := by
                rw [List.drop_succ_cons]
                exact drop_takeWhile_length Char.isDigit rest
              rw [ht1, ht2, hd1, hd2, hwhead]
            rw [hdecomp]
            have hfail := digitRunMatcher_none_elim hw' hm
            rw [digitRunMatcher_none_of_cond ?_]
            · rfl
            · rw [hdc_out, hb_out]
              exact hfail
          · have hc' : c.isDigit = false := by simpa using hc
            rw [digitRunMatcher_of_dcount_zero hlo (dcount_cons_nondigit hc' _)]
            rfl
      · -- match at this position: the whole isolated run is replaced
        obtain ⟨hw', hk, hlok, hkhi, hb⟩ := digitRunMatcher_some hm
        have hkpos : 1 ≤ k := le_trans hlo hlok
        have hk1 : max k 1 = k := Nat.max_eq_left hkpos
        have hout : replaceGFuel (digitRunMatcher lo hi) REDACTED (f + 1) p (c :: rest)
            = REDACTED ++ replaceGFuel (digitRunMatcher lo hi) REDACTED f
                (((c :: rest).take k).getLast?) ((c :: rest).drop k) := by
          simp [replaceGFuel, hm, hk1]
        have htake : (c :: rest).take k = (c :: rest).takeWhile Char.isDigit := by
          rw [hk]
          exact take_takeWhile_length Char.isDigit (c :: rest)
        have hdrop : (c :: rest).drop k = (c :: rest).dropWhile Char.isDigit := by
          rw [hk]
          exact drop_takeWhile_length Char.isDigit (c :: rest)
        have htkne : (c :: rest).takeWhile Char.isDigit ≠ [] := by
          intro hemp
          have h0 : dcount (c :: rest) = 0 := by
            unfold dcount
            rw [hemp]
            rfl
          omega
        have hctxw : isWordOpt (((c :: rest).take k).getLast?) = true := by
          rw [htake]
          exact getLast?_word_of_digits _ htkne (fun x hx => List.mem_takeWhile_imp hx)
        have hout2nd : ∀ x, (replaceGFuel (digitRunMatcher lo hi) REDACTED f
            (((c :: rest).take k).getLast?) ((c :: rest).drop k)).head? = some x →
            x.isDigit = false := by
          intro x hx
          rw [replaceGFuel_head_of_word REDACTED hctxw] at hx
          rw [hdrop] at hx
          exact head_dropWhile_false Char.isDigit (c :: rest) x hx
        rw [hout,
          searchM_append_nondigit hlo REDACTED (by decide) p _,
          searchM_prev_irrelevant hlo hout2nd (lastCtx p REDACTED)
            (((c :: rest).take k).getLast?)]
        apply ih
        rw [List.length_drop]
        have : (c :: rest).length ≤ f + 1 := hf
        rw [List.length_cons] at this
        omega

theorem leadsWith_append_self : ∀ (u v : List Char), leadsWith u (u ++ v) = true := by
  intro u v
  induction u with
  | nil => rfl
  | cons c u ih => simp [leadsWith, ih]

theorem containsSub_of_leadsWith {pat s : List Char} (h : leadsWith pat s = true) :
    containsSub pat s = true := by
  cases s with
  | nil => simpa [containsSub, List.tails] using h
  | cons c rest =>
    unfold containsSub
    rw [List.tails_cons, List.any_cons, h, Bool.true_or]

theorem containsSub_cons {pat : List Char} (c : Char) {w : List Char}
    (h : containsSub pat w = true) : containsSub pat (c :: w) = true := by
  unfold containsSub at h ⊢
  rw [List.tails_cons, List.any_cons, h, Bool.or_true]

/-- Whenever a pattern matches somewhere, the global replace inserts the
redaction marker at least once. -/
theorem replaceGFuel_marker (m : Matcher) (hm0 : ∀ p, m p [] = none) :
    ∀ (f : Nat) (s : List Char) (p : Option Char), s.length ≤ f →
      searchM m p s = true →
      containsSub REDACTED (replaceGFuel m REDACTED f p s) = true := by
  intro f
  induction f with
  | zero =>
    intro s p hf hs
    have : s = [] := List.length_eq_zero.mp (Nat.le_zero.mp hf)
    subst this
    rw [searchM, hm0 p] at hs
    simp at hs
  | succ f ih =>
    intro s p hf hs
    cases s with
    | nil =>
      rw [searchM, hm0 p] at hs
      simp at hs
    | cons c rest =>
      rcases hmc : m p (c :: rest) with - | k
      · rw [searchM, hmc] at hs
        simp only [Option.isSome_none, Bool.false_or] at hs
        have hout : replaceGFuel m REDACTED (f + 1) p (c :: rest)
            = c :: replaceGFuel m REDACTED f (some c) rest := by
          simp [replaceGFuel, hmc]
        rw [hout]
        exact containsSub_cons c (ih rest (some c) (by simpa using hf) hs)
      · have hout : replaceGFuel m REDACTED (f + 1) p (c :: rest)
            = REDACTED ++ replaceGFuel m REDACTED f
                (((c :: rest).take (max k 1)).getLast?) ((c :: rest).drop (max k 1)) := by
          simp [replaceGFuel, hmc]
        rw [hout]
        exact containsSub_of_leadsWith (leadsWith_append_self REDACTED _)

/-- **C6** counterexample.  `"abc1234567890123456xyz"` contains a 16-digit
numeric run, but the run abuts letters, so `/\b\d{12,16}\b/` (and every
other sanitizer stage) leaves it alone: the cleaned output still contains
the run and carries no redaction marker. -/
theorem c6_counterexample :
    hasDigitRun 16 (chars "abc1234567890123456xyz") = true
    ∧ sanitizeContext (chars "abc1234567890123456xyz")
        = chars "abc1234567890123456xyz"
    ∧ hasDigitRun 16 (sanitizeContext (chars "abc1234567890123456xyz")) = true
    ∧ countSub REDACTED (sanitizeContext (chars "abc1234567890123456xyz")) = 0 := by
  refine ⟨by decide, by decide, by decide, by decide⟩

/-- **C6** as amended.  For input containing a *word-isolated* digit run of
length 12–16 (in particular a word-isolated 16-digit run), the sanitizer's
first redaction pattern `/\b\d{12,16}\b/g` — the opening step of
`sanitizeContext`'s pattern-redaction stage — replaces every such run:
its output contains at least one redaction marker and no word-isolated
12–16-digit run.  (End to end the guarantee is per-stage: the later
literal patterns and the instruction-line filter may re-expose digits
adjacent to replaced literals or drop marker-carrying lines, and 16-digit
sequences embedded in words or longer runs are never matched, as the
counterexample shows.) -/
theorem c6_amended (s : List Char)
    (h : reTest (digitRunMatcher 12 16) s = true) :
    containsSub REDACTED (replaceG (digitRunMatcher 12 16) REDACTED s) = true
    ∧ reTest (digitRunMatcher 12 16)
        (replaceG (digitRunMatcher 12 16) REDACTED s) = false
    ∧ sanitizeContext s
        = semanticRedactContext (filterInstructionContent
            ((SENSITIVE_CONTEXT_PATTERNS.drop 1).foldl applySencPat
              (replaceG (digitRunMatcher 12 16) REDACTED s))) := by
  refine ⟨?_, ?_, rfl⟩
  · exact replaceGFuel_marker (digitRunMatcher 12 16)
      (fun p => digitRunMatcher_of_dcount_zero (by norm_num) dcount_nil)
      s.length s none le_rfl h
  · exact searchM_replaceGFuel_digit (by norm_num) s.length s none le_rfl

/-- **C6** witness for the amended theorem. -/
theorem c6_amended_witness :
    containsSub REDACTED
      (replaceG (digitRunMatcher 12 16) REDACTED (chars "see 1234567890123456 now")) = true
    ∧ reTest (digitRunMatcher 12 16)
        (replaceG (digitRunMatcher 12 16) REDACTED (chars "see 1234567890123456 now")) = false :=
  ⟨(c6_amended (chars "see 1234567890123456 now") (by decide)).1,
   (c6_amended (chars "see 1234567890123456 now") (by decide)).2.1⟩

end VectorOps
